import Mathlib

/-!
Verification of the trading-signal tool in testing_v3.py.

The Python program polls (or simulates) a broker's historical-price feed,
computes RSI and Fibonacci retracement levels over the closing-price series,
and applies a static threshold rule to emit a BUY/SELL/none signal.

This file gives a shallow embedding of the computational parts of that
program.  Prices are modelled by rationals (ℚ); pandas/NumPy float values
that can be NaN or infinite are modelled by the inductive type FVal below,
with the IEEE special-value propagation rules spelt out where the source
relies on them (NaN comparisons are false, x/0 is NaN or ±infinity).
Exceptions from the broker SDK are modelled by an Except-valued oracle
argument; the wall clock and the random generator are likewise passed in
as explicit arguments.
-/

namespace TradingBot

/-! ## Signal rule (analyze_and_generate_signal, lines 159-182) -/

/-- The two non-trivial signal outcomes.  The Python code represents a signal
as the string "BUY" or "SELL", or None. -/
inductive Signal where
  | buy : Signal
  | sell : Signal
deriving DecidableEq, Repr

/-- Proximity test used by the signal rule, from the source conditions
abs(latest_price - level) / level < 0.01 (lines 170 and 172).
The division is float division: when level is 0 the quotient is NaN
(if the numerator is 0) or +infinity, and either way the comparison
with 0.01 is false; hence the level ≠ 0 conjunct. -/
def near_level (price level : ℚ) : Prop :=
  level ≠ 0 ∧ |price - level| / level < 1 / 100

instance (price level : ℚ) : Decidable (near_level price level) := by
  unfold near_level; infer_instance

/-- The signal rule of analyze_and_generate_signal (lines 159-182), as a pure
function of the latest RSI value, the latest close price, and the two
Fibonacci levels it consults: l100 is fib_levels["100.0%"] (the window low)
and l0 is fib_levels["0.0%"] (the window high).  The source sets buy_signal
when RSI < 50 and the price is near the 100% level, otherwise (elif) sets
sell_signal when RSI > 55 and the price is near the 0% level, and then maps
the booleans to "BUY" / "SELL" / None. -/
def generate_signal (latest_rsi latest_price l100 l0 : ℚ) : Option Signal :=
  if latest_rsi < 50 ∧ near_level latest_price l100 then some .buy
  else if 55 < latest_rsi ∧ near_level latest_price l0 then some .sell
  else none

/-! ## Fibonacci levels (fibonacci_levels, lines 91-103) -/

/-- Left fold modelling Python's max() over a non-empty list; the [] case is
never used (Python raises there). -/
def listMax : List ℚ → ℚ
  | [] => 0
  | x :: xs => xs.foldl max x

/-- Left fold modelling Python's min() over a non-empty list; the [] case is
never used (Python raises there). -/
def listMin : List ℚ → ℚ
  | [] => 0
  | x :: xs => xs.foldl min x

/-- The fibonacci_levels function (lines 91-103): the six retracement levels,
in the dict's insertion order, keyed by the source's label strings.  The
float literals 0.236, 0.382, 0.5, 0.618 are read as the exact rationals
they denote in the source text. -/
def fibonacci_levels (prices : List ℚ) : List (String × ℚ) :=
  let max_price := listMax prices
  let min_price := listMin prices
  let diff := max_price - min_price
  [("0.0%", max_price),
   ("23.6%", max_price - 236 / 1000 * diff),
   ("38.2%", max_price - 382 / 1000 * diff),
   ("50.0%", max_price - 1 / 2 * diff),
   ("61.8%", max_price - 618 / 1000 * diff),
   ("100.0%", min_price)]

/-- A fold of max over a list only ever grows the accumulator. -/
lemma le_foldl_max (xs : List ℚ) : ∀ b : ℚ, b ≤ xs.foldl max b := by
  induction xs with
  | nil => intro b; simp
  | cons y ys ih =>
      intro b
      calc b ≤ max b y := le_max_left b y
        _ ≤ ys.foldl max (max b y) := ih (max b y)

/-- A fold of min over a list only ever shrinks the accumulator. -/
lemma foldl_min_le (xs : List ℚ) : ∀ b : ℚ, xs.foldl min b ≤ b := by
  induction xs with
  | nil => intro b; simp
  | cons y ys ih =>
      intro b
      calc ys.foldl min (min b y) ≤ min b y := ih (min b y)
        _ ≤ b := min_le_left b y

/-- The minimum of a non-empty list is at most its maximum. -/
lemma listMin_le_listMax (prices : List ℚ) (h : prices ≠ []) :
    listMin prices ≤ listMax prices := by
  cases prices with
  | nil => exact absurd rfl h
  | cons x xs =>
      calc listMin (x :: xs) = xs.foldl min x := rfl
        _ ≤ x := foldl_min_le xs x
        _ ≤ xs.foldl max x := le_foldl_max xs x
        _ = listMax (x :: xs) := rfl

/-- Characterization of the BUY outcome of the signal rule. -/
lemma generate_signal_eq_buy_iff (rsi price l100 l0 : ℚ) :
    generate_signal rsi price l100 l0 = some Signal.buy ↔
      rsi < 50 ∧ near_level price l100 := by
  unfold generate_signal
  split_ifs with c1 c2 <;> simp [*]

/-- Characterization of the SELL outcome of the signal rule: the elif branch
runs only when the buy condition failed. -/
lemma generate_signal_eq_sell_iff (rsi price l100 l0 : ℚ) :
    generate_signal rsi price l100 l0 = some Signal.sell ↔
      ¬(rsi < 50 ∧ near_level price l100) ∧ (55 < rsi ∧ near_level price l0) := by
  unfold generate_signal
  split_ifs with c1 c2 <;> simp [*]

/-- Characterization of the no-signal outcome of the signal rule. -/
lemma generate_signal_eq_none_iff (rsi price l100 l0 : ℚ) :
    generate_signal rsi price l100 l0 = none ↔
      ¬(rsi < 50 ∧ near_level price l100) ∧ ¬(55 < rsi ∧ near_level price l0) := by
  unfold generate_signal
  split_ifs with c1 c2 <;> simp [*]

/-- For a non-zero level the proximity test is the bare relative-distance
inequality. -/
lemma near_level_iff_of_ne (price level : ℚ) (h : level ≠ 0) :
    near_level price level ↔ |price - level| / level < 1 / 100 := by
  unfold near_level
  simp [h]

/-- C1: the signal rule is a pure function of the latest RSI, the latest
close, and the Fibonacci map.  For positive 100% and 0% levels it returns
BUY exactly when RSI < 50 and the price is within 1% of the 100% (low)
level, SELL exactly when RSI > 55 and the price is within 1% of the 0%
(high) level, and no signal otherwise; in particular RSI=40 at the 100%
level gives BUY, RSI=60 at the 0% level gives SELL, and RSI=52 at the
midpoint (the 50% level) gives no signal. -/
theorem signal_rule_spec (rsi price l100 l0 : ℚ) (h100 : 0 < l100) (h0 : 0 < l0) :
    (generate_signal rsi price l100 l0 = some Signal.buy ↔
      rsi < 50 ∧ |price - l100| / l100 < 1 / 100) ∧
    (generate_signal rsi price l100 l0 = some Signal.sell ↔
      55 < rsi ∧ |price - l0| / l0 < 1 / 100) ∧
    (generate_signal rsi price l100 l0 = none ↔
      ¬(rsi < 50 ∧ |price - l100| / l100 < 1 / 100) ∧
      ¬(55 < rsi ∧ |price - l0| / l0 < 1 / 100)) ∧
    generate_signal 40 l100 l100 l0 = some Signal.buy ∧
    generate_signal 60 l0 l100 l0 = some Signal.sell ∧
    generate_signal 52 ((l0 + l100) / 2) l100 l0 = none := by
  have h100' : l100 ≠ 0 := ne_of_gt h100
  have h0' : l0 ≠ 0 := ne_of_gt h0
  have hz100 : |l100 - l100| / l100 = 0 := by simp
  have hz0 : |l0 - l0| / l0 = 0 := by simp
  refine ⟨?_, ?_, ?_, ?_, ?_, ?_⟩
  · rw [generate_signal_eq_buy_iff, near_level_iff_of_ne _ _ h100']
  · rw [generate_signal_eq_sell_iff, near_level_iff_of_ne _ _ h0']
    constructor
    · rintro ⟨-, hb⟩; exact hb
    · rintro ⟨h55, hnear⟩
      exact ⟨fun hc => absurd hc.1 (by linarith), h55, hnear⟩
  · rw [generate_signal_eq_none_iff, near_level_iff_of_ne _ _ h100',
      near_level_iff_of_ne _ _ h0']
  · rw [generate_signal_eq_buy_iff, near_level_iff_of_ne _ _ h100', hz100]
    exact ⟨by norm_num, by norm_num⟩
  · rw [generate_signal_eq_sell_iff, near_level_iff_of_ne _ _ h0', hz0]
    exact ⟨fun hc => by norm_num at hc, by norm_num, by norm_num⟩
  · rw [generate_signal_eq_none_iff]
    exact ⟨fun hc => by norm_num at hc, fun hc => by norm_num at hc⟩

/-- C3: for a non-empty price series the 0% level is the maximum of the
prices, the 100% level is the minimum, and the six levels in ratio order
(0%, 23.6%, 38.2%, 50%, 61.8%, 100%) are monotonically non-increasing. -/
theorem fib_levels_extremes_monotone (prices : List ℚ) (h : prices ≠ []) :
    (fibonacci_levels prices).lookup "0.0%" = some (listMax prices) ∧
    (fibonacci_levels prices).lookup "100.0%" = some (listMin prices) ∧
    List.Chain' (fun a b => b ≤ a) ((fibonacci_levels prices).map Prod.snd) := by
  have hmm : listMin prices ≤ listMax prices := listMin_le_listMax prices h
  refine ⟨rfl, rfl, ?_⟩
  simp only [fibonacci_levels, List.map, List.chain'_cons, List.chain'_singleton,
    and_true]
  refine ⟨?_, ?_, ?_, ?_, ?_⟩ <;> linarith

/-- C3 witness at the concrete series [1, 3, 2]. -/
theorem fib_levels_extremes_monotone_witness :
    (fibonacci_levels [1, 3, 2]).lookup "0.0%" = some (listMax [1, 3, 2]) ∧
    (fibonacci_levels [1, 3, 2]).lookup "100.0%" = some (listMin [1, 3, 2]) ∧
    List.Chain' (fun a b => b ≤ a) ((fibonacci_levels [1, 3, 2]).map Prod.snd) :=
  fib_levels_extremes_monotone [1, 3, 2] (by simp)

/-- C4 counterexample: the Fibonacci calculator returns six levels, keyed by
six retracement ratios, not five as the claim counts them. -/
theorem fib_levels_count_counterexample :
    (fibonacci_levels [0, 1]).map Prod.fst =
      ["0.0%", "23.6%", "38.2%", "50.0%", "61.8%", "100.0%"] ∧
    ((fibonacci_levels [0, 1]).map Prod.fst).length = 6 ∧
    ((fibonacci_levels [0, 1]).map Prod.fst).length ≠ 5 :=
  ⟨rfl, rfl, by simp [fibonacci_levels]⟩

/-- C4 amended: for every non-empty price series the calculator returns one
level per ratio for the six fixed retracement ratios (0%, 23.6%, 38.2%,
50%, 61.8%, 100%), and the level for ratio r is
max(prices) - r * (max(prices) - min(prices)). -/
theorem fib_levels_ratio_formula (prices : List ℚ) (h : prices ≠ []) :
    fibonacci_levels prices =
      [("0.0%", listMax prices - 0 * (listMax prices - listMin prices)),
       ("23.6%", listMax prices - 236 / 1000 * (listMax prices - listMin prices)),
       ("38.2%", listMax prices - 382 / 1000 * (listMax prices - listMin prices)),
       ("50.0%", listMax prices - 1 / 2 * (listMax prices - listMin prices)),
       ("61.8%", listMax prices - 618 / 1000 * (listMax prices - listMin prices)),
       ("100.0%", listMax prices - 1 * (listMax prices - listMin prices))] := by
  have hM : listMax prices - 0 * (listMax prices - listMin prices) = listMax prices := by
    ring
  have hm : listMax prices - 1 * (listMax prices - listMin prices) = listMin prices := by
    ring
  rw [hM, hm]
  rfl

/-- C4 amended witness at the concrete series [0, 1]. -/
theorem fib_levels_ratio_formula_witness :
    fibonacci_levels [0, 1] =
      [("0.0%", listMax [0, 1] - 0 * (listMax [0, 1] - listMin [0, 1])),
       ("23.6%", listMax [0, 1] - 236 / 1000 * (listMax [0, 1] - listMin [0, 1])),
       ("38.2%", listMax [0, 1] - 382 / 1000 * (listMax [0, 1] - listMin [0, 1])),
       ("50.0%", listMax [0, 1] - 1 / 2 * (listMax [0, 1] - listMin [0, 1])),
       ("61.8%", listMax [0, 1] - 618 / 1000 * (listMax [0, 1] - listMin [0, 1])),
       ("100.0%", listMax [0, 1] - 1 * (listMax [0, 1] - listMin [0, 1]))] :=
  fib_levels_ratio_formula [0, 1] (by simp)

/-- C1 witness at RSI 40/60/52, price 101, levels l100 = 100 and l0 = 200. -/
theorem signal_rule_spec_witness :
    (generate_signal 40 101 100 200 = some Signal.buy ↔
      (40 : ℚ) < 50 ∧ |(101 : ℚ) - 100| / 100 < 1 / 100) ∧
    (generate_signal 40 101 100 200 = some Signal.sell ↔
      (55 : ℚ) < 40 ∧ |(101 : ℚ) - 200| / 200 < 1 / 100) ∧
    (generate_signal 40 101 100 200 = none ↔
      ¬((40 : ℚ) < 50 ∧ |(101 : ℚ) - 100| / 100 < 1 / 100) ∧
      ¬((55 : ℚ) < 40 ∧ |(101 : ℚ) - 200| / 200 < 1 / 100)) ∧
    generate_signal 40 100 100 200 = some Signal.buy ∧
    generate_signal 60 200 100 200 = some Signal.sell ∧
    generate_signal 52 ((200 + 100) / 2) 100 200 = none :=
  signal_rule_spec 40 101 100 200 (by norm_num) (by norm_num)

/-! ## Data fetching (fetch_historical_data, lines 107-139)

The broker call, the wall clock and the random generator are modelled as
explicit arguments: the one live historical_data call is an Except-valued
oracle (error = the exception the SDK raised), and the synthetic frame the
simulation path would generate is passed in as a value. -/

/-- A data frame of OHLC rows, the shape fetch_historical_data returns. -/
def Frame : Type := List (ℚ × ℚ × ℚ × ℚ)

/-- The fetch_historical_data function (lines 107-139).  Result components:
the returned frame (an Except: an error value would mean the function let
an exception escape), the number of live SDK calls performed, and whether
an error line was logged. -/
def fetch_historical_data (simulation_mode kite_ok : Bool)
    (live : Except String Frame) (synth : Frame) :
    Except String Frame × ℕ × Bool :=
  if simulation_mode = false ∧ kite_ok = true then
    match live with
    | .ok d => (.ok d, 1, false)
    | .error _ => (.ok synth, 1, true)
  else
    (.ok synth, 0, false)

/-- C6: fetch_historical_data never propagates an exception from the live
broker call: the result is always an ok frame, at most one live call is
made (no retry), and when the live call raises, the error is logged and
the synthetic frame is returned instead. -/
theorem fetch_fallback_no_retry (sim kite_ok : Bool)
    (live : Except String Frame) (synth : Frame) :
    (∃ d, (fetch_historical_data sim kite_ok live synth).1 = Except.ok d) ∧
    (fetch_historical_data sim kite_ok live synth).2.1 ≤ 1 ∧
    (∀ e, live = Except.error e →
      (fetch_historical_data sim kite_ok live synth).1 = Except.ok synth ∧
      (sim = false → kite_ok = true →
        fetch_historical_data sim kite_ok live synth = (Except.ok synth, 1, true))) := by
  cases sim <;> cases kite_ok <;> cases live <;>
    simp [fetch_historical_data]

/-- C6 witness: live mode with an SDK exception at a concrete input. -/
theorem fetch_fallback_no_retry_witness :
    (∃ d, (fetch_historical_data false true (Except.error "boom") []).1 = Except.ok d) ∧
    (fetch_historical_data false true (Except.error "boom") []).2.1 ≤ 1 ∧
    (∀ e, (Except.error "boom" : Except String Frame) = Except.error e →
      (fetch_historical_data false true (Except.error "boom") []).1 = Except.ok [] ∧
      (false = false → true = true →
        fetch_historical_data false true (Except.error "boom") [] =
          (Except.ok [], 1, true))) :=
  fetch_fallback_no_retry false true (Except.error "boom") []

/-! ## Order execution (execute_order, lines 186-214) -/

/-- The side constants the Kite SDK accepts (TRANSACTION_TYPE_BUY and
TRANSACTION_TYPE_SELL). -/
inductive KiteSide where
  | buy : KiteSide
  | sell : KiteSide
deriving DecidableEq, Repr

/-- The transaction-type mapping of lines 196-199: the exact string "BUY"
selects the SDK buy constant, every other string selects sell. -/
def kite_transaction_type (transaction_type : String) : KiteSide :=
  if transaction_type = "BUY" then .buy else .sell

/-- The execute_order function (lines 186-214).  The wall clock (epoch
seconds, int(time.time())) and the place_order SDK call are explicit
arguments.  Result components: the returned order id (None on failure)
and the list of SDK order placements performed, each recorded by its
side. -/
def execute_order (simulation_mode kite_ok : Bool) (now : ℕ)
    (tradingsymbol transaction_type : String) (quantity : ℕ)
    (place_order : KiteSide → Except String String) :
    Option String × List KiteSide :=
  if simulation_mode = true ∨ kite_ok = false then
    (some ("sim_order_" ++ toString now), [])
  else
    match place_order (kite_transaction_type transaction_type) with
    | .ok order_id => (some order_id, [kite_transaction_type transaction_type])
    | .error _ => (none, [kite_transaction_type transaction_type])

/-- C7: in simulation mode (or with no SDK handle) the dispatcher fabricates
the id "sim_order_" followed by the epoch seconds and performs no SDK call;
in live mode it performs exactly one SDK order placement, returns its id on
success and None on any failure. -/
theorem execute_order_spec (sim kite_ok : Bool) (now : ℕ)
    (sym t : String) (q : ℕ)
    (place_order : KiteSide → Except String String) :
    ((sim = true ∨ kite_ok = false) →
      execute_order sim kite_ok now sym t q place_order =
        (some ("sim_order_" ++ toString now), [])) ∧
    (sim = false → kite_ok = true →
      (execute_order sim kite_ok now sym t q place_order).2 =
          [kite_transaction_type t] ∧
      (∀ oid, place_order (kite_transaction_type t) = Except.ok oid →
        (execute_order sim kite_ok now sym t q place_order).1 = some oid) ∧
      (∀ e, place_order (kite_transaction_type t) = Except.error e →
        (execute_order sim kite_ok now sym t q place_order).1 = none)) := by
  cases sim <;> cases kite_ok <;>
    cases hres : place_order (kite_transaction_type t) <;>
    simp [execute_order, hres]

/-- C7 witness: a simulated dispatch at epoch second 1700000000 and a live
dispatch whose SDK call fails. -/
theorem execute_order_spec_witness :
    (((false : Bool) = true ∨ (true : Bool) = false) →
      execute_order false true 1700000000 "NIFTY50" "BUY" 1
          (fun _ => Except.error "rejected") =
        (some ("sim_order_" ++ toString 1700000000), [])) ∧
    ((false : Bool) = false → (true : Bool) = true →
      (execute_order false true 1700000000 "NIFTY50" "BUY" 1
          (fun _ => Except.error "rejected")).2 = [kite_transaction_type "BUY"] ∧
      (∀ oid, (Except.error "rejected" : Except String String) = Except.ok oid →
        (execute_order false true 1700000000 "NIFTY50" "BUY" 1
          (fun _ => Except.error "rejected")).1 = some oid) ∧
      (∀ e, (Except.error "rejected" : Except String String) = Except.error e →
        (execute_order false true 1700000000 "NIFTY50" "BUY" 1
          (fun _ => Except.error "rejected")).1 = none)) :=
  execute_order_spec false true 1700000000 "NIFTY50" "BUY" 1
    (fun _ => Except.error "rejected")

/-- C10: in live mode every transaction_type other than the exact string
"BUY" is mapped to a SELL order placement; nothing validates or rejects the
argument, the single SDK call is made with side sell regardless. -/
theorem non_buy_maps_to_sell (t : String) (h : t ≠ "BUY") (now : ℕ)
    (sym : String) (q : ℕ)
    (place_order : KiteSide → Except String String) :
    kite_transaction_type t = KiteSide.sell ∧
    (execute_order false true now sym t q place_order).2 = [KiteSide.sell] := by
  have hside : kite_transaction_type t = KiteSide.sell := by
    unfold kite_transaction_type
    rw [if_neg h]
  refine ⟨hside, ?_⟩
  unfold execute_order
  rw [hside]
  cases place_order KiteSide.sell <;> simp

/-- C10 witness: the lower-case string "buy" is dispatched as a SELL. -/
theorem non_buy_maps_to_sell_witness :
    kite_transaction_type "buy" = KiteSide.sell ∧
    (execute_order false true 1700000000 "NIFTY50" "buy" 1
        (fun _ => Except.ok "151220000000000")).2 = [KiteSide.sell] :=
  non_buy_maps_to_sell "buy" (by decide) 1700000000 "NIFTY50" 1
    (fun _ => Except.ok "151220000000000")

/-! ## Config handling (load_config, lines 19-45) -/

/-- The kite section of the config: broker credentials. -/
structure KiteCredentials where
  api_key : String
  api_secret : String
  access_token : String
deriving DecidableEq, Repr

/-- The instruments section of the config: instrument-name to symbol map. -/
structure Instruments where
  NIFTY : String
  BANKNIFTY : String
deriving DecidableEq, Repr

/-- The analysis section of the config. -/
structure AnalysisParams where
  rsi_period : ℕ
  interval : String
  duration_days : ℕ
deriving DecidableEq, Repr

/-- The config schema of load_config (lines 26-42). -/
structure Config where
  kite : KiteCredentials
  instruments : Instruments
  analysis : AnalysisParams
  simulation_mode : Bool
deriving DecidableEq, Repr

/-- The default config written on first run (lines 26-42), with its
placeholder values. -/
def default_config : Config :=
  ⟨⟨"YOUR_KITE_API_KEY", "YOUR_KITE_API_SECRET", "YOUR_ACCESS_TOKEN"⟩,
   ⟨"NIFTY50", "BANKNIFTY"⟩,
   ⟨14, "5minute", 1⟩,
   true⟩

/-- The load_config function (lines 19-45).  The filesystem is modelled by
the parsed contents of config.json, or none when the file is absent.
Result components: the config returned to the caller, and the config
written back to disk (none when nothing is written). -/
def load_config (file : Option Config) : Config × Option Config :=
  match file with
  | some cfg => (cfg, none)
  | none => (default_config, some default_config)

/-- C8: when the config file is absent, load_config writes the documented
default schema with its placeholder values and returns that same object;
when the file exists, its contents are returned unchanged and nothing is
written. -/
theorem load_config_spec (file : Option Config) :
    (∀ cfg, file = some cfg → load_config file = (cfg, none)) ∧
    (file = none → load_config file = (default_config, some default_config)) ∧
    default_config =
      ⟨⟨"YOUR_KITE_API_KEY", "YOUR_KITE_API_SECRET", "YOUR_ACCESS_TOKEN"⟩,
       ⟨"NIFTY50", "BANKNIFTY"⟩,
       ⟨14, "5minute", 1⟩,
       true⟩ := by
  cases file <;> simp [load_config, default_config]

/-- C8 witness: the absent-file run at the concrete input none. -/
theorem load_config_spec_witness :
    (∀ cfg, (none : Option Config) = some cfg →
      load_config none = (cfg, none)) ∧
    ((none : Option Config) = none →
      load_config none = (default_config, some default_config)) ∧
    default_config =
      ⟨⟨"YOUR_KITE_API_KEY", "YOUR_KITE_API_SECRET", "YOUR_ACCESS_TOKEN"⟩,
       ⟨"NIFTY50", "BANKNIFTY"⟩,
       ⟨14, "5minute", 1⟩,
       true⟩ :=
  load_config_spec none

/-! ## Division safety of the signal computation (lines 167-173) -/

/-- The two relative-distance quotients the signal computation evaluates
unconditionally, before any threshold test (the logger.info calls on lines
167-168 and the conditions on lines 170 and 172 all divide by
fib_levels["100.0%"] and fib_levels["0.0%"]).  The none result marks the
division-by-zero branch. -/
def signal_step (latest_rsi latest_price : ℚ) (prices : List ℚ) :
    Option (Option Signal) :=
  let fib := fibonacci_levels prices
  let l100 := (fib.lookup "100.0%").getD 0
  let l0 := (fib.lookup "0.0%").getD 0
  if l100 = 0 ∨ l0 = 0 then none
  else some (generate_signal latest_rsi latest_price l100 l0)

/-- A fold of min over positive values starting from a positive accumulator
stays positive. -/
lemma foldl_min_pos (xs : List ℚ) : ∀ b : ℚ, 0 < b → (∀ y ∈ xs, 0 < y) →
    0 < xs.foldl min b := by
  induction xs with
  | nil => intro b hb _; simpa using hb
  | cons y ys ih =>
      intro b hb hmem
      have hy : 0 < y := hmem y (List.mem_cons_self y ys)
      exact ih (min b y) (lt_min hb hy) (fun z hz => hmem z (List.mem_cons_of_mem y hz))

/-- The minimum of a non-empty list of positive prices is positive. -/
lemma listMin_pos (prices : List ℚ) (h : prices ≠ [])
    (hpos : ∀ x ∈ prices, 0 < x) : 0 < listMin prices := by
  cases prices with
  | nil => exact absurd rfl h
  | cons x xs =>
      exact foldl_min_pos xs x (hpos x (List.mem_cons_self x xs))
        (fun z hz => hpos z (List.mem_cons_of_mem x hz))

/-- The maximum of a non-empty list of positive prices is positive. -/
lemma listMax_pos (prices : List ℚ) (h : prices ≠ [])
    (hpos : ∀ x ∈ prices, 0 < x) : 0 < listMax prices := by
  cases prices with
  | nil => exact absurd rfl h
  | cons x xs =>
      exact lt_of_lt_of_le (hpos x (List.mem_cons_self x xs)) (le_foldl_max xs x)

/-- C9: under the precondition that every close price is strictly positive,
both Fibonacci levels the signal computation divides by are non-zero, so
the unconditional divisions are well-defined and the division-by-zero
branch is unreachable: the computation reaches the threshold rule. -/
theorem signal_divisions_safe (prices : List ℚ) (hne : prices ≠ [])
    (hpos : ∀ x ∈ prices, 0 < x) (rsi price : ℚ) :
    0 < listMin prices ∧ 0 < listMax prices ∧
    signal_step rsi price prices =
      some (generate_signal rsi price (listMin prices) (listMax prices)) := by
  have hmin : 0 < listMin prices := listMin_pos prices hne hpos
  have hmax : 0 < listMax prices := listMax_pos prices hne hpos
  refine ⟨hmin, hmax, ?_⟩
  show (if listMin prices = 0 ∨ listMax prices = 0 then none
        else some (generate_signal rsi price (listMin prices) (listMax prices))) =
      some (generate_signal rsi price (listMin prices) (listMax prices))
  rw [if_neg]
  push_neg
  exact ⟨ne_of_gt hmin, ne_of_gt hmax⟩

/-- C9 witness at the concrete positive series [2, 1, 3]. -/
theorem signal_divisions_safe_witness :
    0 < listMin [2, 1, 3] ∧ 0 < listMax [2, 1, 3] ∧
    signal_step 40 1 [2, 1, 3] =
      some (generate_signal 40 1 (listMin [2, 1, 3]) (listMax [2, 1, 3])) :=
  signal_divisions_safe [2, 1, 3] (by simp)
    (by intro x hx; fin_cases hx <;> norm_num) 40 1

/-! ## RSI (calculate_rsi, lines 81-89)

The pipeline is diff → gain/loss → rolling mean → rs → rsi.  The pandas
Series values involved can be NaN (from diff and from the rolling mean's
min_periods, and from 0/0) or infinite (from x/0 with x ≠ 0), so the rs
and rsi stages are modelled over the value type FVal below; the input
close prices themselves are plain rationals. -/

/-- A pandas/NumPy float value: NaN, +infinity, -infinity, or a finite
value (modelled exactly by a rational). -/
inductive FVal where
  | nan : FVal
  | inf : FVal
  | ninf : FVal
  | fin : ℚ → FVal
deriving DecidableEq, Repr

/-- series.diff() (line 82): element 0 is NaN, element j+1 is s[j+1] - s[j]. -/
def diff : List ℚ → List (Option ℚ)
  | [] => []
  | x :: xs => none :: List.zipWith (fun a b => some (b - a)) (x :: xs) xs

/-- delta.where(delta > 0, 0).fillna(0) (line 83): a NaN delta compares
false under > and becomes 0, a non-positive delta becomes 0. -/
def gain_series (s : List ℚ) : List ℚ :=
  (diff s).map (fun d => match d with
    | none => 0
    | some x => if 0 < x then x else 0)

/-- (-delta.where(delta < 0, 0)).fillna(0) (line 84): a NaN delta compares
false under < and becomes 0, a non-negative delta becomes 0, a negative
delta contributes its magnitude. -/
def loss_series (s : List ℚ) : List ℚ :=
  (diff s).map (fun d => match d with
    | none => 0
    | some x => if x < 0 then -x else 0)

/-- The sliding window of width p ending at index i: elements i+1-p .. i. -/
def window (p i : ℕ) (l : List ℚ) : List ℚ :=
  (l.drop (i + 1 - p)).take p

/-- The mean of the window of width p ending at index i. -/
def window_avg (p i : ℕ) (l : List ℚ) : ℚ :=
  (window p i l).sum / p

/-- series.rolling(window=p, min_periods=p).mean() (lines 85-86): NaN until
the window holds p samples (indices below p-1), the plain window average
from index p-1 on. -/
def rolling_mean (p : ℕ) (l : List ℚ) : List (Option ℚ) :=
  (List.range l.length).map
    (fun i => if i + 1 < p then none else some (window_avg p i l))

/-- Elementwise float division avg_gain / avg_loss (line 87): a NaN operand
propagates, x/0 is NaN when x = 0 and ±infinity otherwise. -/
def fdiv (a b : Option ℚ) : FVal :=
  match a, b with
  | some x, some y =>
      if y = 0 then
        if x = 0 then .nan else if 0 < x then .inf else .ninf
      else .fin (x / y)
  | _, _ => .nan

/-- rsi = 100 - 100/(1+rs) (line 88) under float semantics: NaN propagates,
rs = ±infinity gives exactly 100 (100/±infinity is ±0), a finite rs with
1 + rs = 0 gives -infinity, and any other finite rs gives the finite
formula value. -/
def rsi_of_rs : FVal → FVal
  | .nan => .nan
  | .inf => .fin 100
  | .ninf => .fin 100
  | .fin q => if 1 + q = 0 then .ninf else .fin (100 - 100 / (1 + q))

/-- The calculate_rsi function (lines 81-89). -/
def calculate_rsi (s : List ℚ) (period : ℕ) : List FVal :=
  let gain := gain_series s
  let loss := loss_series s
  let avg_gain := rolling_mean period gain
  let avg_loss := rolling_mean period loss
  (List.zipWith fdiv avg_gain avg_loss).map rsi_of_rs

lemma diff_length (s : List ℚ) : (diff s).length = s.length := by
  cases s with
  | nil => rfl
  | cons x xs => simp [diff]

lemma gain_series_length (s : List ℚ) : (gain_series s).length = s.length := by
  simp [gain_series, diff_length]

lemma loss_series_length (s : List ℚ) : (loss_series s).length = s.length := by
  simp [loss_series, diff_length]

lemma rolling_mean_length (p : ℕ) (l : List ℚ) :
    (rolling_mean p l).length = l.length := by
  simp [rolling_mean]

lemma calculate_rsi_length (s : List ℚ) (p : ℕ) :
    (calculate_rsi s p).length = s.length := by
  simp [calculate_rsi, rolling_mean_length, gain_series_length, loss_series_length]

lemma rolling_mean_getElem (p : ℕ) (l : List ℚ) (i : ℕ)
    (h : i < (rolling_mean p l).length) :
    (rolling_mean p l)[i] =
      if i + 1 < p then none else some (window_avg p i l) := by
  simp [rolling_mean]

/-- Element i of calculate_rsi, for i in bounds: NaN while the window is
short, otherwise the rs/rsi conversion applied to the two window means. -/
lemma calculate_rsi_getD (s : List ℚ) (p : ℕ) (i : ℕ) (hi : i < s.length) :
    (calculate_rsi s p).getD i FVal.nan =
      if i + 1 < p then FVal.nan
      else
        rsi_of_rs (fdiv (some (window_avg p i (gain_series s)))
          (some (window_avg p i (loss_series s)))) := by
  have hz : i < (List.zipWith fdiv (rolling_mean p (gain_series s))
      (rolling_mean p (loss_series s))).length := by
    simp [List.length_zipWith, rolling_mean_length, gain_series_length,
      loss_series_length]
    omega
  have hlen : i < ((List.zipWith fdiv (rolling_mean p (gain_series s))
      (rolling_mean p (loss_series s))).map rsi_of_rs).length := by
    simpa using hz
  show ((List.zipWith fdiv (rolling_mean p (gain_series s))
      (rolling_mean p (loss_series s))).map rsi_of_rs).getD i FVal.nan = _
  rw [List.getD_eq_getElem?_getD, List.getElem?_eq_getElem hlen,
    List.getElem_map, List.getElem_zipWith, rolling_mean_getElem,
    rolling_mean_getElem]
  by_cases hp : i + 1 < p
  · simp [hp, fdiv, rsi_of_rs]
  · simp [hp]

/-- Element j of diff, for j in bounds. -/
lemma diff_getElem (s : List ℚ) (j : ℕ) (h : j < (diff s).length) :
    (diff s)[j] =
      if j = 0 then none else some (s.getD j 0 - s.getD (j - 1) 0) := by
  cases s with
  | nil => simp [diff] at h
  | cons x xs =>
      cases j with
      | zero => rfl
      | succ k =>
          have hk : k < xs.length := by
            rw [diff_length] at h
            simpa using h
          have hz : k < (List.zipWith (fun a b => some (b - a))
              (x :: xs) xs).length := by
            simp [List.length_zipWith]
            omega
          show (List.zipWith (fun a b => some (b - a)) (x :: xs) xs)[k] = _
          rw [List.getElem_zipWith]
          simp only [Nat.succ_ne_zero, if_false, Nat.add_sub_cancel]
          have hkc : k < (x :: xs).length := by
            simp
            omega
          have h1 : (x :: xs).getD (k + 1) 0 = xs[k] := by
            rw [List.getD_cons_succ, List.getD_eq_getElem?_getD,
              List.getElem?_eq_getElem hk]
            rfl
          have h2 : (x :: xs).getD k 0 = (x :: xs)[k] := by
            rw [List.getD_eq_getElem?_getD, List.getElem?_eq_getElem hkc]
            rfl
          rw [h1, h2]

/-- Element j of the gain series, for j in bounds. -/
lemma gain_series_getElem (s : List ℚ) (j : ℕ)
    (h : j < (gain_series s).length) :
    (gain_series s)[j] =
      if j = 0 then 0
      else if 0 < s.getD j 0 - s.getD (j - 1) 0
        then s.getD j 0 - s.getD (j - 1) 0 else 0 := by
  have hd : j < (diff s).length := by
    rw [diff_length]
    rw [gain_series_length] at h
    exact h
  show ((diff s).map _)[j] = _
  rw [List.getElem_map, diff_getElem s j hd]
  by_cases hj : j = 0 <;> simp [hj]

/-- Element j of the loss series, for j in bounds. -/
lemma loss_series_getElem (s : List ℚ) (j : ℕ)
    (h : j < (loss_series s).length) :
    (loss_series s)[j] =
      if j = 0 then 0
      else if s.getD j 0 - s.getD (j - 1) 0 < 0
        then -(s.getD j 0 - s.getD (j - 1) 0) else 0 := by
  have hd : j < (diff s).length := by
    rw [diff_length]
    rw [loss_series_length] at h
    exact h
  show ((diff s).map _)[j] = _
  rw [List.getElem_map, diff_getElem s j hd]
  by_cases hj : j = 0 <;> simp [hj]

lemma window_subset (p i : ℕ) (l : List ℚ) (x : ℚ) (hx : x ∈ window p i l) :
    x ∈ l :=
  List.mem_of_mem_drop (List.mem_of_mem_take hx)

lemma window_length (p i : ℕ) (l : List ℚ) (h1 : p ≤ i + 1) (h2 : i < l.length) :
    (window p i l).length = p := by
  simp [window]
  omega

/-- Every element of the width-p window ending at index i is an element of
the underlying list at an index between i+1-p and i. -/
lemma mem_window_getD (p i : ℕ) (l : List ℚ) (h1 : p ≤ i + 1) (x : ℚ)
    (hx : x ∈ window p i l) :
    ∃ j, i + 1 - p ≤ j ∧ j ≤ i ∧ j < l.length ∧ l.getD j 0 = x := by
  rw [List.mem_iff_getElem] at hx
  obtain ⟨m, hm, hval⟩ := hx
  have hm' : m < p ∧ i + 1 - p + m < l.length := by
    simp [window] at hm
    omega
  refine ⟨i + 1 - p + m, Nat.le_add_right _ _, by omega, hm'.2, ?_⟩
  rw [List.getD_eq_getElem?_getD, List.getElem?_eq_getElem hm'.2]
  rw [← hval]
  simp [window]

lemma gain_series_nonneg (s : List ℚ) : ∀ x ∈ gain_series s, 0 ≤ x := by
  intro x hx
  rw [gain_series, List.mem_map] at hx
  obtain ⟨d, -, rfl⟩ := hx
  cases d with
  | none => exact le_refl 0
  | some y =>
      dsimp only
      split_ifs with hy
      · exact le_of_lt hy
      · exact le_refl 0

lemma loss_series_nonneg (s : List ℚ) : ∀ x ∈ loss_series s, 0 ≤ x := by
  intro x hx
  rw [loss_series, List.mem_map] at hx
  obtain ⟨d, -, rfl⟩ := hx
  cases d with
  | none => exact le_refl 0
  | some y =>
      dsimp only
      split_ifs with hy
      · linarith
      · exact le_refl 0

lemma window_avg_nonneg (p i : ℕ) (l : List ℚ) (hnn : ∀ x ∈ l, 0 ≤ x) :
    0 ≤ window_avg p i l := by
  apply div_nonneg
  · exact List.sum_nonneg (fun x hx => hnn x (window_subset p i l x hx))
  · exact Nat.cast_nonneg p

lemma window_avg_zero (p i : ℕ) (l : List ℚ) (hz : ∀ x ∈ window p i l, x = 0) :
    window_avg p i l = 0 := by
  unfold window_avg
  rw [List.sum_eq_zero hz, zero_div]

lemma window_avg_pos (p i : ℕ) (l : List ℚ) (hp : 1 ≤ p) (h1 : p ≤ i + 1)
    (h2 : i < l.length) (hpos : ∀ x ∈ window p i l, 0 < x) :
    0 < window_avg p i l := by
  unfold window_avg
  apply div_pos
  · apply List.sum_pos _ hpos
    apply List.ne_nil_of_length_pos
    rw [window_length p i l h1 h2]
    omega
  · exact_mod_cast Nat.pos_of_ne_zero (by omega)

/-- C2 amended: for p ≥ 1 and every index i of the series, the RSI is NaN
while fewer than p samples have accumulated; once p samples have
accumulated it equals 100 - 100/(1 + rs) where rs is the ratio of the
rolling simple moving averages of gains and losses over p bars — except
that when the average loss is zero the value is exactly 100 if the average
gain is positive and remains NaN (0/0) if the window is flat. -/
theorem rsi_definedness_amended (s : List ℚ) (p : ℕ) (hp : 1 ≤ p) (i : ℕ)
    (hi : i < s.length) :
    (i + 1 < p → (calculate_rsi s p).getD i FVal.nan = FVal.nan) ∧
    (p ≤ i + 1 →
      (calculate_rsi s p).getD i FVal.nan =
        if window_avg p i (loss_series s) = 0 then
          if window_avg p i (gain_series s) = 0 then FVal.nan else FVal.fin 100
        else
          FVal.fin (100 - 100 /
            (1 + window_avg p i (gain_series s) / window_avg p i (loss_series s)))) := by
  constructor
  · intro hlt
    rw [calculate_rsi_getD s p i hi, if_pos hlt]
  · intro hge
    rw [calculate_rsi_getD s p i hi, if_neg (by omega)]
    have hGnn : 0 ≤ window_avg p i (gain_series s) :=
      window_avg_nonneg p i _ (gain_series_nonneg s)
    have hLnn : 0 ≤ window_avg p i (loss_series s) :=
      window_avg_nonneg p i _ (loss_series_nonneg s)
    by_cases hL0 : window_avg p i (loss_series s) = 0
    · by_cases hG0 : window_avg p i (gain_series s) = 0
      · simp [fdiv, hL0, hG0, rsi_of_rs]
      · have hGpos : 0 < window_avg p i (gain_series s) :=
          lt_of_le_of_ne hGnn (Ne.symm hG0)
        simp [fdiv, hL0, hG0, hGpos, rsi_of_rs]
    · have hLpos : 0 < window_avg p i (loss_series s) :=
        lt_of_le_of_ne hLnn (Ne.symm hL0)
      have hq : 0 ≤ window_avg p i (gain_series s) / window_avg p i (loss_series s) :=
        div_nonneg hGnn (le_of_lt hLpos)
      have h1q : 1 + window_avg p i (gain_series s) /
          window_avg p i (loss_series s) ≠ 0 :=
        ne_of_gt (by linarith)
      simp [fdiv, hL0, rsi_of_rs, h1q]

/-- C2 amended witness at the series [1, 2, 3] with period 2 and index 1. -/
theorem rsi_definedness_amended_witness :
    (1 + 1 < 2 → (calculate_rsi [1, 2, 3] 2).getD 1 FVal.nan = FVal.nan) ∧
    (2 ≤ 1 + 1 →
      (calculate_rsi [1, 2, 3] 2).getD 1 FVal.nan =
        if window_avg 2 1 (loss_series [1, 2, 3]) = 0 then
          if window_avg 2 1 (gain_series [1, 2, 3]) = 0 then FVal.nan
          else FVal.fin 100
        else
          FVal.fin (100 - 100 /
            (1 + window_avg 2 1 (gain_series [1, 2, 3]) /
              window_avg 2 1 (loss_series [1, 2, 3])))) :=
  rsi_definedness_amended [1, 2, 3] 2 (by norm_num) 1 (by norm_num)

/-- C2 counterexample: for the constant series [1, 1] with period p = 2,
p samples have accumulated at index 1, yet the RSI value there is still
NaN — the rolling average gain and average loss are both zero, so
rs = 0/0 is NaN and so is 100 - 100/(1+rs). -/
theorem rsi_flat_series_counterexample :
    2 ≤ 1 + 1 ∧ (1 : ℕ) < ([1, 1] : List ℚ).length ∧
    (calculate_rsi [1, 1] 2).getD 1 FVal.nan = FVal.nan := by
  refine ⟨by norm_num, by norm_num, ?_⟩
  rw [calculate_rsi_getD [1, 1] 2 1 (by norm_num), if_neg (by norm_num)]
  have hG : window_avg 2 1 (gain_series [1, 1]) = 0 := by
    norm_num [window_avg, window, gain_series, diff, List.zipWith]
  have hL : window_avg 2 1 (loss_series [1, 1]) = 0 := by
    norm_num [window_avg, window, loss_series, diff, List.zipWith]
  rw [hG, hL]
  simp [fdiv, rsi_of_rs]

/-- A strictly monotonically increasing price series (consecutive form). -/
def StrictIncr (s : List ℚ) : Prop :=
  ∀ j, j + 1 < s.length → s.getD j 0 < s.getD (j + 1) 0

/-- A strictly monotonically decreasing price series (consecutive form). -/
def StrictDecr (s : List ℚ) : Prop :=
  ∀ j, j + 1 < s.length → s.getD (j + 1) 0 < s.getD j 0

/-- On a strictly increasing series every per-bar loss is zero. -/
lemma loss_series_zero_of_incr (s : List ℚ) (hinc : StrictIncr s) :
    ∀ x ∈ loss_series s, x = 0 := by
  intro x hx
  rw [List.mem_iff_getElem] at hx
  obtain ⟨j, hj, hval⟩ := hx
  rw [loss_series_getElem s j hj] at hval
  by_cases h0 : j = 0
  · rw [if_pos h0] at hval
    exact hval.symm
  · rw [if_neg h0] at hval
    have hjlen : j < s.length := by rwa [loss_series_length] at hj
    have hdelta : s.getD (j - 1) 0 < s.getD j 0 := by
      have h := hinc (j - 1) (by omega)
      rwa [Nat.sub_add_cancel (by omega : 1 ≤ j)] at h
    rw [if_neg (by linarith)] at hval
    exact hval.symm

/-- On a strictly decreasing series every per-bar gain is zero. -/
lemma gain_series_zero_of_decr (s : List ℚ) (hdec : StrictDecr s) :
    ∀ x ∈ gain_series s, x = 0 := by
  intro x hx
  rw [List.mem_iff_getElem] at hx
  obtain ⟨j, hj, hval⟩ := hx
  rw [gain_series_getElem s j hj] at hval
  by_cases h0 : j = 0
  · rw [if_pos h0] at hval
    exact hval.symm
  · rw [if_neg h0] at hval
    have hjlen : j < s.length := by rwa [gain_series_length] at hj
    have hdelta : s.getD j 0 < s.getD (j - 1) 0 := by
      have h := hdec (j - 1) (by omega)
      rwa [Nat.sub_add_cancel (by omega : 1 ≤ j)] at h
    rw [if_neg (by linarith)] at hval
    exact hval.symm

/-- On a strictly increasing series with at least p+1 samples, every gain in
the final width-p window is positive (the window starts at index ≥ 1, so
the fabricated zero gain at index 0 is outside it). -/
lemma gain_window_pos_of_incr (s : List ℚ) (p : ℕ) (hinc : StrictIncr s)
    (hp : 1 ≤ p) (hlen : p + 1 ≤ s.length) :
    ∀ x ∈ window p (s.length - 1) (gain_series s), 0 < x := by
  intro x hx
  have h1 : p ≤ s.length - 1 + 1 := by omega
  obtain ⟨j, hjlo, hjhi, hjlen, hval⟩ :=
    mem_window_getD p (s.length - 1) (gain_series s) h1 x hx
  have hjlen' : j < s.length := by rwa [gain_series_length] at hjlen
  have hj1 : 1 ≤ j := by
    rw [gain_series_length] at hjlen
    omega
  have hval' : (gain_series s)[j] = x := by
    rw [List.getD_eq_getElem?_getD, List.getElem?_eq_getElem hjlen] at hval
    exact hval
  rw [gain_series_getElem s j hjlen] at hval'
  rw [if_neg (by omega)] at hval'
  have hdelta : 0 < s.getD j 0 - s.getD (j - 1) 0 := by
    have h := hinc (j - 1) (by omega)
    rw [Nat.sub_add_cancel hj1] at h
    linarith
  rw [if_pos hdelta] at hval'
  rw [← hval']
  exact hdelta

/-- On a strictly decreasing series with at least p+1 samples, every loss in
the final width-p window is positive. -/
lemma loss_window_pos_of_decr (s : List ℚ) (p : ℕ) (hdec : StrictDecr s)
    (hp : 1 ≤ p) (hlen : p + 1 ≤ s.length) :
    ∀ x ∈ window p (s.length - 1) (loss_series s), 0 < x := by
  intro x hx
  have h1 : p ≤ s.length - 1 + 1 := by omega
  obtain ⟨j, hjlo, hjhi, hjlen, hval⟩ :=
    mem_window_getD p (s.length - 1) (loss_series s) h1 x hx
  have hjlen' : j < s.length := by rwa [loss_series_length] at hjlen
  have hj1 : 1 ≤ j := by
    rw [loss_series_length] at hjlen
    omega
  have hval' : (loss_series s)[j] = x := by
    rw [List.getD_eq_getElem?_getD, List.getElem?_eq_getElem hjlen] at hval
    exact hval
  rw [loss_series_getElem s j hjlen] at hval'
  rw [if_neg (by omega)] at hval'
  have hdelta : s.getD j 0 - s.getD (j - 1) 0 < 0 := by
    have h := hdec (j - 1) (by omega)
    rw [Nat.sub_add_cancel hj1] at h
    linarith
  rw [if_pos hdelta] at hval'
  rw [← hval']
  linarith

/-- C5: on a strictly increasing price series with at least period+1 samples
the RSI at the last index is exactly 100 (every per-bar loss is zero and
rs is +infinity), and on a strictly decreasing such series it is exactly 0
(every per-bar gain is zero and rs is 0). -/
theorem rsi_monotone_extremes (p : ℕ) (hp : 1 ≤ p) (u d : List ℚ)
    (hu : p + 1 ≤ u.length) (hd : p + 1 ≤ d.length)
    (hinc : StrictIncr u) (hdec : StrictDecr d) :
    (calculate_rsi u p).getD (u.length - 1) FVal.nan = FVal.fin 100 ∧
    (calculate_rsi d p).getD (d.length - 1) FVal.nan = FVal.fin 0 := by
  constructor
  · have hi : u.length - 1 < u.length := by omega
    rw [calculate_rsi_getD u p (u.length - 1) hi, if_neg (by omega)]
    have hL : window_avg p (u.length - 1) (loss_series u) = 0 :=
      window_avg_zero p (u.length - 1) (loss_series u)
        (fun x hx => loss_series_zero_of_incr u hinc x
          (window_subset p (u.length - 1) (loss_series u) x hx))
    have hG : 0 < window_avg p (u.length - 1) (gain_series u) := by
      apply window_avg_pos p (u.length - 1) (gain_series u) hp (by omega)
        (by rw [gain_series_length]; omega)
      exact gain_window_pos_of_incr u p hinc hp hu
    rw [hL]
    simp [fdiv, ne_of_gt hG, hG, rsi_of_rs]
  · have hi : d.length - 1 < d.length := by omega
    rw [calculate_rsi_getD d p (d.length - 1) hi, if_neg (by omega)]
    have hG : window_avg p (d.length - 1) (gain_series d) = 0 :=
      window_avg_zero p (d.length - 1) (gain_series d)
        (fun x hx => gain_series_zero_of_decr d hdec x
          (window_subset p (d.length - 1) (gain_series d) x hx))
    have hL : 0 < window_avg p (d.length - 1) (loss_series d) := by
      apply window_avg_pos p (d.length - 1) (loss_series d) hp (by omega)
        (by rw [loss_series_length]; omega)
      exact loss_window_pos_of_decr d p hdec hp hd
    rw [hG]
    have hLne : window_avg p (d.length - 1) (loss_series d) ≠ 0 := ne_of_gt hL
    simp [fdiv, hLne, rsi_of_rs]

/-- C5 witness at the concrete series [1, 2, 3] and [3, 2, 1] with
period 2. -/
theorem rsi_monotone_extremes_witness :
    (calculate_rsi [1, 2, 3] 2).getD (([1, 2, 3] : List ℚ).length - 1) FVal.nan =
      FVal.fin 100 ∧
    (calculate_rsi [3, 2, 1] 2).getD (([3, 2, 1] : List ℚ).length - 1) FVal.nan =
      FVal.fin 0 := by
  have hinc : StrictIncr [1, 2, 3] := by
    intro j hj
    simp only [List.length_cons, List.length_nil] at hj
    have hj2 : j < 2 := by omega
    interval_cases j <;> norm_num
  have hdec : StrictDecr [3, 2, 1] := by
    intro j hj
    simp only [List.length_cons, List.length_nil] at hj
    have hj2 : j < 2 := by omega
    interval_cases j <;> norm_num
  exact rsi_monotone_extremes 2 (by norm_num) [1, 2, 3] [3, 2, 1]
    (by norm_num) (by norm_num) hinc hdec
